import Mathlib

/-!
Verification of a reliable-multicast protocol with Lamport clocks.

Two implementations are embedded:
* `RMP` — the ACK-based process (`lamport_clock.py`): message ids are strings
  of the form "<sender>-<lamport>-<content>", a delivered-set deduplicates,
  a pending-ack table drives retransmission.
* `Gossip` — the flooding process (`reliable_multicast_lamport.py`): message
  identity is the pair (original_sender, timestamp).

Python strings are embedded as `List Char`, Python ints as `Nat`
(all integers occurring in the protocol are non-negative), Python dicts as
association lists with dict semantics (first-match lookup, in-place update),
and Python sets as duplicate-free lists.
-/

namespace RMP

abbrev Str := List Char

/-- Decimal digit character, embedding Python integer formatting. -/
def digitCh (n : Nat) : Char := Char.ofNat (48 + n)

/-- Fuel-driven worker for `natDigits` (structural recursion on the fuel,
so that concrete values reduce in the kernel). -/
def natDigitsAux : Nat → Nat → List Char
  | 0, _ => []
  | f + 1, n =>
    if n < 10 then [digitCh n]
    else natDigitsAux f (n / 10) ++ [digitCh (n % 10)]

/-- Decimal representation of a natural number (most significant digit first),
embedding Python str(int) for non-negative integers, as used by the f-string
building a message id. -/
def natDigits (n : Nat) : List Char := natDigitsAux (n + 1) n

/-- Python int(...) on a decimal digit string. -/
def pyInt (l : Str) : Nat := l.foldl (fun a c => a * 10 + (c.toNat - 48)) 0

/-- message_id = f"{sender}-{lamport}-{content}" from r_multicast. -/
def msgId (s t : Nat) (c : Str) : Str :=
  natDigits s ++ ('-' :: (natDigits t ++ ('-' :: c)))

/-- Split off the field before the first occurrence of a separator:
one step of Python str.split(sep, maxsplit). Returns none when the
separator does not occur (Python then yields fewer fields and the
destructuring assignment in the source would fail). -/
def splitFirst (sep : Char) : Str → Option (Str × Str)
  | [] => none
  | c :: rest =>
    if c = sep then some ([], rest)
    else
      match splitFirst sep rest with
      | none => none
      | some (a, b) => some (c :: a, b)

/-- message_id.split('-', 2) destructured into exactly three parts. -/
def split2 (sep : Char) (l : Str) : Option (Str × Str × Str) :=
  match splitFirst sep l with
  | none => none
  | some (a, r) =>
    match splitFirst sep r with
    | none => none
    | some (b, c) => some (a, b, c)

/-- Wire message kinds. -/
inductive Kind
  | data
  | ack
deriving DecidableEq

/-- A wire envelope as built by _send_message, together with the peer index
it is addressed to (target_addr = BASE_PORT + target). -/
structure Envelope where
  kind : Kind
  message_id : Str
  content : Str
  sender_id : Nat
  lamport : Nat
  target : Nat
deriving DecidableEq

/-- _send_message builds an envelope for a target peer. -/
def sendMessage (kind : Kind) (mid content : Str) (sender ts target : Nat) :
    Envelope :=
  ⟨kind, mid, content, sender, ts, target⟩

/-- Association-list lookup: Python dict access (first match). -/
def lookupT {α : Type} : List (Str × α) → Str → Option α
  | [], _ => none
  | (k, v) :: t, k' => if k' = k then some v else lookupT t k'

/-- Association-list update: Python dict assignment (replace in place,
else append). -/
def setT {α : Type} : List (Str × α) → Str → α → List (Str × α)
  | [], k, v => [(k, v)]
  | (k0, v0) :: t, k, v =>
    if k = k0 then (k, v) :: t else (k0, v0) :: setT t k v

/-- Association-list deletion: Python del d[k]. -/
def delT {α : Type} : List (Str × α) → Str → List (Str × α)
  | [], _ => []
  | (k0, v0) :: t, k => if k = k0 then t else (k0, v0) :: delT t k

/-- State of one ReliableMulticastProcess: its id, the peer count, the
Lamport clock, the delivered-message set, the pending-ack table and the
buffer of delivered messages (content, sender_id, lamport). -/
structure Proc where
  process_id : Nat
  total_processes : Nat
  lamport_clock : Nat
  delivered_messages : List Str
  pending_acks : List (Str × List Nat)
  buffer_messages : List (Str × (Str × Nat × Nat))
deriving DecidableEq

/-- __init__ state of a process. -/
def initProc (pid total : Nat) : Proc :=
  ⟨pid, total, 0, [], [], []⟩

/-- _increment_lamport_clock: adds one and returns the new clock. -/
def incrementLamportClock (c : Nat) : Nat := c + 1

/-- _update_lamport_clock: clock becomes max(clock, received) + 1. -/
def updateLamportClock (c t : Nat) : Nat := max c t + 1

/-- A record of one application delivery callback: the r_deliver call with
the envelope fields it was reached from. -/
structure Deliv where
  message_id : Str
  content : Str
  sender_id : Nat
  lamport : Nat
deriving DecidableEq

/-- r_multicast: tick the clock, build the message id, register the full
peer set in pending_acks, send a DATA envelope to every peer. -/
def rMulticast (p : Proc) (content : Str) : Proc × List Envelope :=
  let cl := incrementLamportClock p.lamport_clock
  let mid := msgId p.process_id cl content
  ({ p with
      lamport_clock := cl
      pending_acks := setT p.pending_acks mid (List.range p.total_processes) },
   (List.range p.total_processes).map
     (fun i => sendMessage .data mid content p.process_id cl i))

/-- r_deliver: update the clock with the message timestamp (the delivery
callback itself is recorded by the caller). -/
def rDeliver (p : Proc) (ts : Nat) : Proc :=
  { p with lamport_clock := updateLamportClock p.lamport_clock ts }

/-- _on_message_received: update the clock; if the id is new, record it,
buffer the message, deliver, and ACK the origin; otherwise only re-ACK. -/
def onMessageReceived (p : Proc) (mid content : Str) (s ts : Nat) :
    Proc × List Envelope × List Deliv :=
  let p1 := { p with lamport_clock := updateLamportClock p.lamport_clock ts }
  if mid ∈ p1.delivered_messages then
    (p1, [sendMessage .ack mid [] p.process_id p1.lamport_clock s], [])
  else
    let p2 := { p1 with
      delivered_messages := mid :: p1.delivered_messages
      buffer_messages := setT p1.buffer_messages mid (content, s, ts) }
    let p3 := rDeliver p2 ts
    (p3, [sendMessage .ack mid [] p.process_id p3.lamport_clock s],
     [⟨mid, content, s, ts⟩])

/-- _on_ack_received: tick the clock; if the id is pending, drop the acking
peer from its set, deleting the entry when the set empties. -/
def onAckReceived (p : Proc) (mid : Str) (ackSender : Nat) : Proc :=
  let p1 := { p with lamport_clock := incrementLamportClock p.lamport_clock }
  match lookupT p1.pending_acks mid with
  | none => p1
  | some s =>
    if ackSender ∈ s then
      let s' := s.erase ackSender
      if s' = [] then { p1 with pending_acks := delT p1.pending_acks mid }
      else { p1 with pending_acks := setT p1.pending_acks mid s' }
    else p1

/-- One pending-ack entry's part of a retransmission pass: parse the id,
and when this process originated the message, re-send the DATA envelope to
every still-pending peer. -/
def retransmitEntry (pid : Nat) (e : Str × List Nat) : List Envelope :=
  if e.2 = [] then []
  else
    match split2 '-' e.1 with
    | none => []
    | some (sStr, tStr, contentPart) =>
      let s := pyInt sStr
      let t := pyInt tStr
      if s = pid then
        e.2.map (fun tgt => sendMessage .data e.1 contentPart s t tgt)
      else []

/-- _retransmit_messages: one pass over the pending-ack table. -/
def retransmitMessages (p : Proc) : List Envelope :=
  p.pending_acks.flatMap (retransmitEntry p.process_id)

/-- The keys of an association table. -/
def keysT {α : Type} (t : List (Str × α)) : List Str := t.map Prod.fst

/-- Forget the buffer component of a state (used to phrase that no
operation's behaviour depends on the buffer's contents). -/
def clearBuffer (p : Proc) : Proc := { p with buffer_messages := [] }

/-- Invariant relating the buffer to the delivered set: every buffered key
has been delivered.  It holds in the initial state and is preserved by every
event. -/
def bufInv (p : Proc) : Prop :=
  ∀ k, (lookupT p.buffer_messages k).isSome → k ∈ p.delivered_messages

/-- The events a process handles: an incoming DATA envelope, an incoming
ACK envelope (whose lamport field the handler ignores), an application
multicast call, one retransmission-timer pass. -/
inductive Event
  | recvData (mid content : Str) (s ts : Nat)
  | recvAck (mid : Str) (s ts : Nat)
  | mcast (content : Str)
  | retrans
deriving DecidableEq

/-- Dispatch of one event, as in _listen_for_messages and the timer thread;
returns the new state, the envelopes sent, and the delivery callbacks. -/
def step (p : Proc) (e : Event) : Proc × List Envelope × List Deliv :=
  match e with
  | .recvData mid content s ts => onMessageReceived p mid content s ts
  | .recvAck mid s _ => (onAckReceived p mid s, [], [])
  | .mcast content =>
    let r := rMulticast p content
    (r.1, r.2, [])
  | .retrans => (p, retransmitMessages p, [])

/-- A run of a process over a list of events. -/
def run (p : Proc) : List Event → Proc × List Envelope × List Deliv
  | [] => (p, [], [])
  | e :: es =>
    let r := step p e
    let r' := run r.1 es
    (r'.1, r.2.1 ++ r'.2.1, r.2.2 ++ r'.2.2)

/-- The Lamport timestamp an event mints for a send: an mcast event stamps
its DATA envelopes with clock + 1, other events send no fresh-stamped DATA. -/
def stampOf (p : Proc) : Event → List Nat
  | Event.mcast _ => [p.lamport_clock + 1]
  | _ => []

/-- The Lamport timestamps a process mints for its own multicasts along a
run. -/
def sendStamps (p : Proc) : List Event → List Nat
  | [] => []
  | e :: es => stampOf p e ++ sendStamps (step p e).1 es

/-- Folding a sequence of received ACKs for one message id into the state,
as the listener thread does. -/
def runAcks (p : Proc) (mid : Str) : List Nat → Proc
  | [] => p
  | a :: as => runAcks (onAckReceived p mid a) mid as

end RMP

namespace Gossip

open RMP (Str)

/-- A gossip message: content, timestamp, original sender. -/
structure GMsg where
  content : Str
  timestamp : Nat
  original_sender : Nat
deriving DecidableEq

/-- State of one gossip Processo: its id, Lamport clock and the set of
delivered (original_sender, timestamp) identities. -/
structure GProc where
  id : Nat
  lamport_clock : Nat
  delivered_messages : List (Nat × Nat)
deriving DecidableEq

/-- A delivery callback record of the gossip process. -/
structure GDeliv where
  content : Str
  original_sender : Nat
  timestamp : Nat
deriving DecidableEq

/-- handle_receive: identity is (original_sender, timestamp); duplicates
return immediately; otherwise advance the clock, mark delivered, deliver,
and flood the message to all n queues. -/
def handleReceive (n : Nat) (p : GProc) (m : GMsg) :
    GProc × List (GMsg × Nat) × List GDeliv :=
  let uid := (m.original_sender, m.timestamp)
  if uid ∈ p.delivered_messages then (p, [], [])
  else
    ({ p with
        lamport_clock := max p.lamport_clock m.timestamp + 1
        delivered_messages := uid :: p.delivered_messages },
     (List.range n).map (fun i => (m, i)),
     [⟨m.content, m.original_sender, m.timestamp⟩])

/-- A run of a gossip process over a list of received messages. -/
def grun (n : Nat) (p : GProc) :
    List GMsg → GProc × List (GMsg × Nat) × List GDeliv
  | [] => (p, [], [])
  | m :: ms =>
    let r := handleReceive n p m
    let r' := grun n r.1 ms
    (r'.1, r.2.1 ++ r'.2.1, r.2.2 ++ r'.2.2)

end Gossip

namespace RMP

theorem digitCh_toNat {n : Nat} (h : n < 10) : (digitCh n).toNat = 48 + n := by
  interval_cases n <;> decide

theorem digitCh_ne_dash {n : Nat} (h : n < 10) : digitCh n ≠ '-' := by
  interval_cases n <;> decide

theorem natDigitsAux_ne_dash :
    ∀ f n, ∀ c ∈ natDigitsAux f n, c ≠ '-' := by
  intro f
  induction f with
  | zero => intro n c hc; simp [natDigitsAux] at hc
  | succ f ih =>
    intro n c hc
    by_cases h : n < 10
    · simp [natDigitsAux, h] at hc
      subst hc
      exact digitCh_ne_dash h
    · simp [natDigitsAux, h] at hc
      rcases hc with hc | hc
      · exact ih _ _ hc
      · subst hc
        exact digitCh_ne_dash (Nat.mod_lt _ (by omega))

theorem natDigits_ne_dash (n : Nat) : ∀ c ∈ natDigits n, c ≠ '-' :=
  natDigitsAux_ne_dash _ n

theorem splitFirst_append {a r : Str} (h : ∀ c ∈ a, c ≠ '-') :
    splitFirst '-' (a ++ '-' :: r) = some (a, r) := by
  induction a with
  | nil => simp [splitFirst]
  | cons c a ih =>
    have hc : c ≠ '-' := h c (by simp)
    have ih' := ih (fun x hx => h x (by simp [hx]))
    simp [splitFirst, hc, ih']

theorem split2_msgId (s t : Nat) (c : Str) :
    split2 '-' (msgId s t c) = some (natDigits s, natDigits t, c) := by
  simp [split2, msgId, splitFirst_append (natDigits_ne_dash s),
    splitFirst_append (natDigits_ne_dash t)]

theorem pyInt_aux :
    ∀ f n acc, n < f →
      (natDigitsAux f n).foldl (fun a c => a * 10 + (c.toNat - 48)) acc =
        acc * 10 ^ (natDigitsAux f n).length + n := by
  intro f
  induction f with
  | zero => intro n acc h; omega
  | succ f ih =>
    intro n acc h
    by_cases h10 : n < 10
    · simp [natDigitsAux, h10, digitCh_toNat h10]
    · have hdiv : n / 10 < f := by
        have h1 : n / 10 < n := Nat.div_lt_self (by omega) (by omega)
        omega
      have hm : n % 10 < 10 := Nat.mod_lt _ (by omega)
      simp only [natDigitsAux, if_neg h10, List.foldl_append, List.length_append,
        List.foldl_cons, List.foldl_nil, List.length_cons, List.length_nil]
      rw [ih _ acc hdiv, digitCh_toNat hm]
      rw [show (48 : Nat) + n % 10 - 48 = n % 10 by omega]
      have hnm : n / 10 * 10 + n % 10 = n := by omega
      have hr : ((natDigitsAux f (n / 10)).length + (0 + 1)) =
          (natDigitsAux f (n / 10)).length + 1 := by omega
      rw [hr, pow_succ]
      have he : (acc * 10 ^ (natDigitsAux f (n / 10)).length + n / 10) * 10 +
            n % 10 =
          acc * (10 ^ (natDigitsAux f (n / 10)).length * 10) +
            (n / 10 * 10 + n % 10) := by ring
      rw [he, hnm]

theorem pyInt_natDigits (n : Nat) : pyInt (natDigits n) = n := by
  have := pyInt_aux (n + 1) n 0 (by omega)
  simpa [pyInt, natDigits] using this

theorem natDigits_injective {m n : Nat} (h : natDigits m = natDigits n) :
    m = n := by
  have hm := pyInt_natDigits m
  rw [h, pyInt_natDigits] at hm
  omega

theorem msgId_injective {s t s' t' : Nat} {c c' : Str}
    (h : msgId s t c = msgId s' t' c') : s = s' ∧ t = t' ∧ c = c' := by
  have h2 : (some (natDigits s, natDigits t, c) :
      Option (Str × Str × Str)) = some (natDigits s', natDigits t', c') := by
    rw [← split2_msgId s t c, h, split2_msgId]
  simp only [Option.some.injEq, Prod.mk.injEq] at h2
  exact ⟨natDigits_injective h2.1, natDigits_injective h2.2.1, h2.2.2⟩



theorem lookupT_setT_self {α : Type} (t : List (Str × α)) (k : Str) (v : α) :
    lookupT (setT t k v) k = some v := by
  induction t with
  | nil => simp [setT, lookupT]
  | cons e t ih =>
    by_cases h : k = e.1
    · simp [setT, h, lookupT]
    · simp [setT, h, lookupT, ih]

theorem lookupT_setT_ne {α : Type} (t : List (Str × α)) (k k' : Str) (v : α)
    (h : k' ≠ k) : lookupT (setT t k v) k' = lookupT t k' := by
  induction t with
  | nil => simp [setT, lookupT, h]
  | cons e t ih =>
    by_cases he : k = e.1
    · subst he
      simp [setT, lookupT, h]
    · by_cases he' : k' = e.1
      · simp [setT, he, lookupT, he']
      · simp [setT, he, lookupT, he', ih]

theorem lookupT_delT_ne {α : Type} (t : List (Str × α)) (k k' : Str)
    (h : k' ≠ k) : lookupT (delT t k) k' = lookupT t k' := by
  induction t with
  | nil => simp [delT]
  | cons e t ih =>
    by_cases he : k = e.1
    · subst he
      simp [delT, lookupT, h]
    · by_cases he' : k' = e.1
      · simp [delT, he, lookupT, he']
      · simp [delT, he, lookupT, he', ih]

theorem keysT_cons {α : Type} (e : Str × α) (t : List (Str × α)) :
    keysT (e :: t) = e.1 :: keysT t := by
  simp [keysT]

theorem lookupT_eq_none {α : Type} (t : List (Str × α)) (k : Str) :
    lookupT t k = none ↔ k ∉ keysT t := by
  induction t with
  | nil => simp [lookupT, keysT]
  | cons e t ih =>
    rw [keysT_cons]
    by_cases h : k = e.1
    · simp [lookupT, h]
    · simp [lookupT, h, ih]

theorem lookupT_delT_self {α : Type} (t : List (Str × α)) (k : Str)
    (h : (keysT t).Nodup) : lookupT (delT t k) k = none := by
  induction t with
  | nil => simp [delT, lookupT]
  | cons e t ih =>
    rw [keysT_cons] at h
    obtain ⟨h1, h2⟩ := List.nodup_cons.mp h
    by_cases he : k = e.1
    · subst he
      rw [delT]
      simp only [if_pos rfl]
      rw [lookupT_eq_none]
      exact h1
    · rw [delT]
      simp only [if_neg he]
      rw [lookupT, if_neg he]
      exact ih h2

theorem keysT_setT_sub {α : Type} (t : List (Str × α)) (k : Str) (v : α) :
    ∀ x ∈ keysT (setT t k v), x ∈ keysT t ∨ x = k := by
  induction t with
  | nil =>
    intro x hx
    rw [setT, keysT_cons] at hx
    rcases List.mem_cons.mp hx with hx | hx
    · exact Or.inr hx
    · simp [keysT] at hx
  | cons e t ih =>
    intro x hx
    by_cases he : k = e.1
    · rw [setT, if_pos he, keysT_cons] at hx
      rw [keysT_cons]
      rcases List.mem_cons.mp hx with hx | hx
      · exact Or.inr hx
      · exact Or.inl (List.mem_cons_of_mem _ hx)
    · rw [setT, if_neg he, keysT_cons] at hx
      rw [keysT_cons]
      rcases List.mem_cons.mp hx with hx | hx
      · subst hx
        exact Or.inl (List.mem_cons_self _ _)
      · rcases ih x hx with h | h
        · exact Or.inl (List.mem_cons_of_mem _ h)
        · exact Or.inr h

theorem keysT_setT_nodup {α : Type} (t : List (Str × α)) (k : Str) (v : α)
    (h : (keysT t).Nodup) : (keysT (setT t k v)).Nodup := by
  induction t with
  | nil => simp [setT, keysT]
  | cons e t ih =>
    rw [keysT_cons] at h
    obtain ⟨h1, h2⟩ := List.nodup_cons.mp h
    by_cases he : k = e.1
    · rw [setT, if_pos he, keysT_cons]
      exact List.nodup_cons.mpr ⟨he ▸ h1, h2⟩
    · rw [setT, if_neg he, keysT_cons]
      refine List.nodup_cons.mpr ⟨fun hk => ?_, ih h2⟩
      rcases keysT_setT_sub t k v e.1 hk with hh | hh
      · exact h1 hh
      · exact he hh.symm

theorem keysT_delT_sublist {α : Type} (t : List (Str × α)) (k : Str) :
    (keysT (delT t k)).Sublist (keysT t) := by
  induction t with
  | nil => simp [delT]
  | cons e t ih =>
    by_cases he : k = e.1
    · rw [delT, if_pos he, keysT_cons]
      exact List.sublist_cons_self _ _
    · rw [delT, if_neg he, keysT_cons, keysT_cons]
      exact List.Sublist.cons₂ _ ih

theorem keysT_delT_nodup {α : Type} (t : List (Str × α)) (k : Str)
    (h : (keysT t).Nodup) : (keysT (delT t k)).Nodup :=
  (keysT_delT_sublist t k).nodup h

theorem run_cons (p : Proc) (e : Event) (es : List Event) :
    run p (e :: es) =
      ((run (step p e).1 es).1,
       (step p e).2.1 ++ (run (step p e).1 es).2.1,
       (step p e).2.2 ++ (run (step p e).1 es).2.2) := rfl

theorem onAckReceived_delivered (p : Proc) (mid : Str) (a : Nat) :
    (onAckReceived p mid a).delivered_messages = p.delivered_messages := by
  simp only [onAckReceived]
  split
  · rfl
  · split
    · split <;> rfl
    · rfl

theorem onAckReceived_buffer (p : Proc) (mid : Str) (a : Nat) :
    (onAckReceived p mid a).buffer_messages = p.buffer_messages := by
  simp only [onAckReceived]
  split
  · rfl
  · split
    · split <;> rfl
    · rfl

theorem onAckReceived_clock (p : Proc) (mid : Str) (a : Nat) :
    (onAckReceived p mid a).lamport_clock = p.lamport_clock + 1 := by
  simp only [onAckReceived]
  split
  · rfl
  · split
    · split <;> rfl
    · rfl

theorem onMessageReceived_log (p : Proc) (mid content : Str) (s ts : Nat) :
    (onMessageReceived p mid content s ts).2.2 =
      if mid ∈ p.delivered_messages then [] else [⟨mid, content, s, ts⟩] := by
  simp only [onMessageReceived]
  split <;> rfl

theorem onMessageReceived_delivered (p : Proc) (mid content : Str) (s ts : Nat) :
    (onMessageReceived p mid content s ts).1.delivered_messages =
      if mid ∈ p.delivered_messages then p.delivered_messages
      else mid :: p.delivered_messages := by
  simp only [onMessageReceived]
  split <;> rfl

theorem step_delivered_mono (p : Proc) (e : Event) (m : Str)
    (h : m ∈ p.delivered_messages) : m ∈ (step p e).1.delivered_messages := by
  cases e with
  | recvData mid content s ts =>
    simp only [step]
    rw [onMessageReceived_delivered]
    split
    · exact h
    · exact List.mem_cons_of_mem _ h
  | recvAck mid s ts =>
    simp only [step]
    rw [onAckReceived_delivered]
    exact h
  | mcast content => exact h
  | retrans => exact h

theorem run_delivered_mono :
    ∀ (es : List Event) (p : Proc) (m : Str), m ∈ p.delivered_messages →
      m ∈ (run p es).1.delivered_messages := by
  intro es
  induction es with
  | nil => intro p m h; exact h
  | cons e es ih =>
    intro p m h
    rw [run_cons]
    exact ih _ _ (step_delivered_mono p e m h)

theorem step_log_sound (p : Proc) (e : Event) :
    ∀ d ∈ (step p e).2.2,
      e = Event.recvData d.message_id d.content d.sender_id d.lamport ∧
      d.message_id ∉ p.delivered_messages ∧
      d.message_id ∈ (step p e).1.delivered_messages := by
  cases e with
  | recvData mid content s ts =>
    intro d hd
    simp only [step] at hd ⊢
    rw [onMessageReceived_log] at hd
    rw [onMessageReceived_delivered]
    by_cases h : mid ∈ p.delivered_messages
    · rw [if_pos h] at hd
      simp at hd
    · rw [if_neg h] at hd
      simp at hd
      subst hd
      simp [h]
  | recvAck mid s ts => intro d hd; simp [step] at hd
  | mcast content => intro d hd; simp [step, rMulticast] at hd
  | retrans => intro d hd; simp [step] at hd

theorem run_log_sound :
    ∀ (es : List Event) (p : Proc), ∀ d ∈ (run p es).2.2,
      Event.recvData d.message_id d.content d.sender_id d.lamport ∈ es := by
  intro es
  induction es with
  | nil => intro p d hd; simp [run] at hd
  | cons e es ih =>
    intro p d hd
    rw [run_cons] at hd
    rcases List.mem_append.mp hd with hd | hd
    · rw [← (step_log_sound p e d hd).1]
      exact List.mem_cons_self _ _
    · exact List.mem_cons_of_mem _ (ih _ d hd)

theorem run_no_redeliver :
    ∀ (es : List Event) (p : Proc) (m : Str), m ∈ p.delivered_messages →
      ∀ d ∈ (run p es).2.2, d.message_id ≠ m := by
  intro es
  induction es with
  | nil => intro p m _ d hd; simp [run] at hd
  | cons e es ih =>
    intro p m hm d hd
    rw [run_cons] at hd
    rcases List.mem_append.mp hd with hd | hd
    · intro hc
      exact (step_log_sound p e d hd).2.1 (hc ▸ hm)
    · exact ih _ m (step_delivered_mono p e m hm) d hd

theorem run_atMostOnce :
    ∀ (es : List Event) (p : Proc) (s t : Nat),
      (∀ mid c mid' c', Event.recvData mid c s t ∈ es →
        Event.recvData mid' c' s t ∈ es → mid = mid') →
      (run p es).2.2.countP
        (fun d => decide (d.sender_id = s ∧ d.lamport = t)) ≤ 1 := by
  intro es
  induction es with
  | nil => intro p s t _; simp [run]
  | cons e es ih =>
    intro p s t H
    have H' : ∀ mid c mid' c', Event.recvData mid c s t ∈ es →
        Event.recvData mid' c' s t ∈ es → mid = mid' :=
      fun mid c mid' c' h1 h2 =>
        H mid c mid' c' (List.mem_cons_of_mem _ h1) (List.mem_cons_of_mem _ h2)
    rw [run_cons]
    rw [List.countP_append]
    cases e with
    | recvAck mid s0 ts0 => simpa [step] using ih _ s t H'
    | mcast content => simpa [step, rMulticast] using ih _ s t H'
    | retrans => simpa [step] using ih _ s t H'
    | recvData mid c0 s0 t0 =>
      simp only [step, onMessageReceived_log]
      by_cases hm : mid ∈ p.delivered_messages
      · rw [if_pos hm]
        simpa [step] using ih _ s t H'
      · rw [if_neg hm]
        by_cases hid : s0 = s ∧ t0 = t
        · obtain ⟨rfl, rfl⟩ := hid
          have hcount0 :
              (run (onMessageReceived p mid c0 s0 t0).1 es).2.2.countP
                (fun d => decide (d.sender_id = s0 ∧ d.lamport = t0)) = 0 := by
            rw [List.countP_eq_zero]
            intro d hd hdp
            simp only [decide_eq_true_eq] at hdp
            have hprov := run_log_sound es _ d hd
            rw [hdp.1, hdp.2] at hprov
            have hmid : d.message_id = mid :=
              H d.message_id d.content mid c0
                (List.mem_cons_of_mem _ hprov) (List.mem_cons_self _ _)
            have hin : mid ∈ (onMessageReceived p mid c0 s0 t0).1.delivered_messages := by
              rw [onMessageReceived_delivered, if_neg hm]
              exact List.mem_cons_self _ _
            exact run_no_redeliver es _ mid hin d hd hmid
          rw [hcount0]
          simp
        · have : (fun d => decide (d.sender_id = s ∧ d.lamport = t))
              (⟨mid, c0, s0, t0⟩ : Deliv) = false := by
            simp only [decide_eq_false_iff_not]
            exact fun hc => hid ⟨hc.1, hc.2⟩
          rw [List.countP_cons_of_neg _ _ (by simpa using this)]
          simpa [step] using ih _ s t H'

theorem onMessageReceived_clock (p : Proc) (mid content : Str) (s ts : Nat) :
    (onMessageReceived p mid content s ts).1.lamport_clock =
      if mid ∈ p.delivered_messages then max p.lamport_clock ts + 1
      else max (max p.lamport_clock ts + 1) ts + 1 := by
  simp only [onMessageReceived, rDeliver, updateLamportClock]
  split <;> rfl

theorem step_clock_mono (p : Proc) (e : Event) :
    p.lamport_clock ≤ (step p e).1.lamport_clock := by
  cases e with
  | recvData mid content s ts =>
    simp only [step]
    rw [onMessageReceived_clock]
    split <;> omega
  | recvAck mid s ts =>
    simp only [step]
    rw [onAckReceived_clock]
    omega
  | mcast content =>
    simp only [step, rMulticast, incrementLamportClock]
    omega
  | retrans => exact Nat.le_refl _



theorem sendStamps_lb :
    ∀ (es : List Event) (p : Proc), ∀ x ∈ sendStamps p es,
      p.lamport_clock < x := by
  intro es
  induction es with
  | nil => intro p x hx; simp [sendStamps] at hx
  | cons e es ih =>
    intro p x hx
    rw [sendStamps] at hx
    rcases List.mem_append.mp hx with hx | hx
    · cases e <;> simp [stampOf] at hx
      omega
    · have h1 := ih (step p e).1 x hx
      have h2 := step_clock_mono p e
      omega

theorem sendStamps_chain :
    ∀ (es : List Event) (p : Proc),
      List.Chain' (· < ·) (sendStamps p es) := by
  intro es
  induction es with
  | nil => intro p; simp [sendStamps]
  | cons e es ih =>
    intro p
    rw [sendStamps]
    cases e with
    | mcast content =>
      simp only [stampOf, List.singleton_append]
      rw [List.chain'_cons']
      refine ⟨fun y hy => ?_, ih _⟩
      have hmem := List.mem_of_mem_head? hy
      have h1 := sendStamps_lb es _ y hmem
      have h2 : (step p (Event.mcast content)).1.lamport_clock =
          p.lamport_clock + 1 := rfl
      omega
    | recvData mid c s ts =>
      simpa [stampOf] using ih (step p (Event.recvData mid c s ts)).1
    | recvAck mid s ts =>
      simpa [stampOf] using ih (step p (Event.recvAck mid s ts)).1
    | retrans => simpa [stampOf] using ih (step p Event.retrans).1

end RMP

namespace Gossip

theorem grun_cons (n : Nat) (p : GProc) (m : GMsg) (ms : List GMsg) :
    grun n p (m :: ms) =
      ((grun n (handleReceive n p m).1 ms).1,
       (handleReceive n p m).2.1 ++ (grun n (handleReceive n p m).1 ms).2.1,
       (handleReceive n p m).2.2 ++ (grun n (handleReceive n p m).1 ms).2.2) := rfl

theorem handleReceive_log (n : Nat) (p : GProc) (m : GMsg) :
    (handleReceive n p m).2.2 =
      if (m.original_sender, m.timestamp) ∈ p.delivered_messages then []
      else [⟨m.content, m.original_sender, m.timestamp⟩] := by
  simp only [handleReceive]
  split <;> rfl

theorem handleReceive_delivered (n : Nat) (p : GProc) (m : GMsg) :
    (handleReceive n p m).1.delivered_messages =
      if (m.original_sender, m.timestamp) ∈ p.delivered_messages then
        p.delivered_messages
      else (m.original_sender, m.timestamp) :: p.delivered_messages := by
  simp only [handleReceive]
  split <;> rfl

theorem handleReceive_delivered_mono (n : Nat) (p : GProc) (m : GMsg)
    (i : Nat × Nat) (h : i ∈ p.delivered_messages) :
    i ∈ (handleReceive n p m).1.delivered_messages := by
  rw [handleReceive_delivered]
  split
  · exact h
  · exact List.mem_cons_of_mem _ h

theorem grun_no_redeliver :
    ∀ (ms : List GMsg) (n : Nat) (p : GProc) (s t : Nat),
      (s, t) ∈ p.delivered_messages →
      ∀ d ∈ (grun n p ms).2.2, ¬(d.original_sender = s ∧ d.timestamp = t) := by
  intro ms
  induction ms with
  | nil => intro n p s t _ d hd; simp [grun] at hd
  | cons m ms ih =>
    intro n p s t hst d hd
    rw [grun_cons] at hd
    rcases List.mem_append.mp hd with hd | hd
    · rw [handleReceive_log] at hd
      by_cases hm : (m.original_sender, m.timestamp) ∈ p.delivered_messages
      · rw [if_pos hm] at hd
        simp at hd
      · rw [if_neg hm] at hd
        simp at hd
        subst hd
        rintro ⟨rfl, rfl⟩
        exact hm hst
    · exact ih n _ s t (handleReceive_delivered_mono n p m _ hst) d hd

theorem grun_atMostOnce :
    ∀ (ms : List GMsg) (n : Nat) (p : GProc) (s t : Nat),
      (grun n p ms).2.2.countP
        (fun d => decide (d.original_sender = s ∧ d.timestamp = t)) ≤ 1 := by
  intro ms
  induction ms with
  | nil => intro n p s t; simp [grun]
  | cons m ms ih =>
    intro n p s t
    rw [grun_cons, List.countP_append]
    rw [handleReceive_log]
    by_cases hm : (m.original_sender, m.timestamp) ∈ p.delivered_messages
    · rw [if_pos hm]
      simpa using ih n _ s t
    · rw [if_neg hm]
      by_cases hid : m.original_sender = s ∧ m.timestamp = t
      · obtain ⟨hs, ht⟩ := hid
        have hin : (s, t) ∈ (handleReceive n p m).1.delivered_messages := by
          rw [handleReceive_delivered, if_neg hm, hs, ht]
          exact List.mem_cons_self _ _
        have hcount0 :
            (grun n (handleReceive n p m).1 ms).2.2.countP
              (fun d => decide (d.original_sender = s ∧ d.timestamp = t)) = 0 := by
          rw [List.countP_eq_zero]
          intro d hd hdp
          simp only [decide_eq_true_eq] at hdp
          exact grun_no_redeliver ms n _ s t hin d hd hdp
        rw [hcount0]
        simp [hs, ht]
      · have : (fun d => decide (d.original_sender = s ∧ d.timestamp = t))
            (⟨m.content, m.original_sender, m.timestamp⟩ : GDeliv) = false := by
          simp only [decide_eq_false_iff_not]
          exact fun hc => hid ⟨hc.1, hc.2⟩
        rw [List.countP_cons_of_neg _ _ (by simpa using this)]
        simpa using ih n _ s t

end Gossip

namespace RMP



theorem onMessageReceived_buffer (p : Proc) (mid content : Str) (s ts : Nat) :
    (onMessageReceived p mid content s ts).1.buffer_messages =
      if mid ∈ p.delivered_messages then p.buffer_messages
      else setT p.buffer_messages mid (content, s, ts) := by
  simp only [onMessageReceived, rDeliver]
  split <;> rfl

theorem step_ignores_buffer (p : Proc)
    (b : List (Str × (Str × Nat × Nat))) (e : Event) :
    clearBuffer (step { p with buffer_messages := b } e).1 =
      clearBuffer (step p e).1 ∧
    (step { p with buffer_messages := b } e).2.1 = (step p e).2.1 ∧
    (step { p with buffer_messages := b } e).2.2 = (step p e).2.2 := by
  cases e with
  | recvData mid content s ts =>
    by_cases h : mid ∈ p.delivered_messages <;>
      simp [step, onMessageReceived, rDeliver, clearBuffer, h]
  | recvAck mid s ts =>
    refine ⟨?_, rfl, rfl⟩
    cases hl : lookupT p.pending_acks mid with
    | none => simp [step, onAckReceived, hl, clearBuffer]
    | some s' =>
      by_cases ha : s ∈ s'
      · by_cases he : s'.erase s = [] <;>
          simp [step, onAckReceived, hl, ha, he, clearBuffer]
      · simp [step, onAckReceived, hl, ha, clearBuffer]
  | mcast content => simp [step, rMulticast, clearBuffer]
  | retrans => simp [step, retransmitMessages, clearBuffer]



theorem step_buffer_nonData (p : Proc) (e : Event)
    (h : ∀ mid c s ts, e ≠ Event.recvData mid c s ts) :
    (step p e).1.buffer_messages = p.buffer_messages := by
  cases e with
  | recvData mid c s ts => exact absurd rfl (h mid c s ts)
  | recvAck mid s ts => exact onAckReceived_buffer p mid s
  | mcast content => rfl
  | retrans => rfl

theorem step_preserves_bufInv (p : Proc) (e : Event) (h : bufInv p) :
    bufInv (step p e).1 := by
  intro k hk
  cases e with
  | recvData mid c s ts =>
    simp only [step] at hk ⊢
    rw [onMessageReceived_buffer] at hk
    rw [onMessageReceived_delivered]
    by_cases hm : mid ∈ p.delivered_messages
    · rw [if_pos hm] at hk
      rw [if_pos hm]
      exact h k hk
    · rw [if_neg hm] at hk
      rw [if_neg hm]
      by_cases hkm : k = mid
      · exact hkm ▸ List.mem_cons_self _ _
      · rw [lookupT_setT_ne _ _ _ _ hkm] at hk
        exact List.mem_cons_of_mem _ (h k hk)
  | recvAck mid s ts =>
    simp only [step] at hk ⊢
    rw [onAckReceived_buffer] at hk
    rw [onAckReceived_delivered]
    exact h k hk
  | mcast content => exact h k hk
  | retrans => exact h k hk

theorem step_buffer_mono (p : Proc) (e : Event) (k : Str)
    (v : Str × Nat × Nat) (hinv : bufInv p)
    (h : lookupT p.buffer_messages k = some v) :
    lookupT (step p e).1.buffer_messages k = some v := by
  cases e with
  | recvData mid c s ts =>
    simp only [step]
    rw [onMessageReceived_buffer]
    by_cases hm : mid ∈ p.delivered_messages
    · rw [if_pos hm]; exact h
    · rw [if_neg hm]
      by_cases hkm : k = mid
      · subst hkm
        exact absurd (hinv k (by simp [h])) hm
      · rw [lookupT_setT_ne _ _ _ _ hkm]
        exact h
  | recvAck mid s ts =>
    simp only [step]
    rw [onAckReceived_buffer]
    exact h
  | mcast content => exact h
  | retrans => exact h

theorem run_buffer_mono :
    ∀ (es : List Event) (p : Proc) (k : Str) (v : Str × Nat × Nat),
      bufInv p → lookupT p.buffer_messages k = some v →
      lookupT (run p es).1.buffer_messages k = some v := by
  intro es
  induction es with
  | nil => intro p k v _ h; exact h
  | cons e es ih =>
    intro p k v hinv h
    rw [run_cons]
    exact ih _ k v (step_preserves_bufInv p e hinv)
      (step_buffer_mono p e k v hinv h)



theorem onAckReceived_pending_none (p : Proc) (mid : Str) (a : Nat)
    (h : lookupT p.pending_acks mid = none) :
    (onAckReceived p mid a).pending_acks = p.pending_acks := by
  simp [onAckReceived, h]

theorem runAcks_pending_none :
    ∀ (as : List Nat) (p : Proc) (mid : Str),
      lookupT p.pending_acks mid = none →
      (runAcks p mid as).pending_acks = p.pending_acks := by
  intro as
  induction as with
  | nil => intro p mid _; rfl
  | cons a as ih =>
    intro p mid h
    rw [runAcks]
    rw [ih _ mid (by rw [onAckReceived_pending_none p mid a h]; exact h)]
    exact onAckReceived_pending_none p mid a h

theorem onAckReceived_pending (p : Proc) (mid : Str) (a : Nat)
    (S : List Nat) (h : lookupT p.pending_acks mid = some S) :
    (onAckReceived p mid a).pending_acks =
      if a ∈ S then
        (if S.erase a = [] then delT p.pending_acks mid
         else setT p.pending_acks mid (S.erase a))
      else p.pending_acks := by
  simp only [onAckReceived, h]
  by_cases ha : a ∈ S
  · rw [if_pos ha, if_pos ha]
    by_cases he : S.erase a = []
    · rw [if_pos he, if_pos he]
    · rw [if_neg he, if_neg he]
  · rw [if_neg ha, if_neg ha]

theorem runAcks_lookup :
    ∀ (as : List Nat) (p : Proc) (mid : Str) (S : List Nat),
      (keysT p.pending_acks).Nodup → S.Nodup → S ≠ [] →
      lookupT p.pending_acks mid = some S →
      lookupT (runAcks p mid as).pending_acks mid =
        (if S.filter (fun x => decide (x ∉ as)) = [] then none
         else some (S.filter (fun x => decide (x ∉ as)))) := by
  intro as
  induction as with
  | nil =>
    intro p mid S _ _ hSne h
    have hfil : S.filter (fun x => decide (x ∉ ([] : List Nat))) = S := by
      simp
    simp only [runAcks]
    rw [hfil, if_neg hSne]
    exact h
  | cons a as ih =>
    intro p mid S hk hS hSne h
    simp only [runAcks]
    have hpend := onAckReceived_pending p mid a S h
    by_cases ha : a ∈ S
    · by_cases he : S.erase a = []
      · have hlen : S.length = 1 := by
          have h1 := List.length_erase_of_mem ha
          rw [he] at h1
          have h0 : S.length ≠ 0 := fun hh => hSne (List.length_eq_zero.mp hh)
          simp at h1
          omega
        obtain ⟨b, rfl⟩ := List.length_eq_one.mp hlen
        have hb : a = b := by simpa using ha
        subst hb
        have hnone : lookupT (onAckReceived p mid a).pending_acks mid = none := by
          rw [hpend, if_pos ha, if_pos he]
          exact lookupT_delT_self _ _ hk
        have hrun := runAcks_pending_none as (onAckReceived p mid a) mid hnone
        rw [show lookupT (runAcks (onAckReceived p mid a) mid as).pending_acks mid
              = none from by rw [hrun]; exact hnone]
        rw [if_pos (by simp)]
      · have hnew : lookupT (onAckReceived p mid a).pending_acks mid =
            some (S.erase a) := by
          rw [hpend, if_pos ha, if_neg he]
          exact lookupT_setT_self _ _ _
        have hk' : (keysT (onAckReceived p mid a).pending_acks).Nodup := by
          rw [hpend, if_pos ha, if_neg he]
          exact keysT_setT_nodup _ _ _ hk
        have hS' : (S.erase a).Nodup := List.Nodup.erase a hS
        rw [ih (onAckReceived p mid a) mid (S.erase a) hk' hS' he hnew]
        rw [List.Nodup.erase_eq_filter hS a, List.filter_filter]
        have hfun : (fun x => decide (x ∉ as) && (x != a)) =
            (fun x : Nat => decide (x ∉ a :: as)) := by
          funext x
          by_cases h1 : x = a <;> by_cases h2 : x ∈ as <;>
            simp [h1, h2, List.mem_cons]
        rw [hfun]
    · rw [if_neg ha] at hpend
      have hk' : (keysT (onAckReceived p mid a).pending_acks).Nodup := by
        rw [hpend]; exact hk
      have hnew : lookupT (onAckReceived p mid a).pending_acks mid = some S := by
        rw [hpend]; exact h
      rw [ih _ mid S hk' hS hSne hnew]
      have hfilter : S.filter (fun x => decide (x ∉ as)) =
          S.filter (fun x => decide (x ∉ a :: as)) := by
        apply List.filter_congr
        intro x hx
        have hxa : x ≠ a := fun hh => ha (hh ▸ hx)
        by_cases h2 : x ∈ as <;> simp [h2, hxa, List.mem_cons]
      rw [hfilter]

end RMP

namespace Gossip

theorem handleReceive_clock (n : Nat) (p : GProc) (m : GMsg) :
    (handleReceive n p m).1.lamport_clock =
      if (m.original_sender, m.timestamp) ∈ p.delivered_messages then
        p.lamport_clock
      else max p.lamport_clock m.timestamp + 1 := by
  simp only [handleReceive]
  split <;> rfl

end Gossip

namespace RMP

/-- Claim C4: tick (_increment_lamport_clock) adds exactly 1 and returns the
new value; advance (_update_lamport_clock) sets the clock to
max(counter, receivedTimestamp) + 1 and returns the new value. -/
theorem claim_C4_clock_operations (c t : Nat) :
    incrementLamportClock c = c + 1 ∧ updateLamportClock c t = max c t + 1 :=
  ⟨rfl, rfl⟩

/-- Claim C9: handling a DATA envelope whose id is not yet delivered applies
the Lamport advance rule twice with the same received timestamp (once on
receipt, once inside r_deliver), so the clock after a fresh delivery is
max(previous clock, received timestamp) + 2. -/
theorem claim_C9_double_advance (p : Proc) (mid content : Str) (s ts : Nat)
    (h : mid ∉ p.delivered_messages) :
    (onMessageReceived p mid content s ts).1.lamport_clock =
      max p.lamport_clock ts + 2 := by
  rw [onMessageReceived_clock, if_neg h]
  omega

theorem claim_C9_witness :
    ("0-1-a".data) ∉ (initProc 1 3).delivered_messages ∧
    (onMessageReceived (initProc 1 3) ("0-1-a".data) ("a".data) 0 1).1.lamport_clock =
      max (initProc 1 3).lamport_clock 1 + 2 :=
  ⟨by decide,
   claim_C9_double_advance (initProc 1 3) ("0-1-a".data) ("a".data) 0 1 (by decide)⟩

/-- Claim C6: a DATA envelope whose id is already delivered triggers no
delivery callback, leaves the delivered set, the buffer and the pending-ack
table unchanged, and still sends one ACK for that message id back to the
origin sender. -/
theorem claim_C6_duplicate_data (p : Proc) (mid content : Str) (s ts : Nat)
    (h : mid ∈ p.delivered_messages) :
    (onMessageReceived p mid content s ts).2.2 = [] ∧
    (onMessageReceived p mid content s ts).1.delivered_messages =
      p.delivered_messages ∧
    (onMessageReceived p mid content s ts).1.buffer_messages =
      p.buffer_messages ∧
    (onMessageReceived p mid content s ts).1.pending_acks = p.pending_acks ∧
    (onMessageReceived p mid content s ts).2.1 =
      [sendMessage .ack mid [] p.process_id (max p.lamport_clock ts + 1) s] := by
  simp only [onMessageReceived]
  rw [if_pos h]
  exact ⟨rfl, rfl, rfl, rfl, rfl⟩

theorem claim_C6_witness :
    ("0-1-a".data) ∈
      (Proc.mk 1 3 5 [("0-1-a".data)] [] []).delivered_messages ∧
    (onMessageReceived (Proc.mk 1 3 5 [("0-1-a".data)] [] [])
      ("0-1-a".data) ("a".data) 0 1).2.2 = [] :=
  ⟨by decide,
   (claim_C6_duplicate_data (Proc.mk 1 3 5 [("0-1-a".data)] [] [])
     ("0-1-a".data) ("a".data) 0 1 (by decide)).1⟩

/-- Claim C5: r_multicast ticks the clock to mint a fresh timestamp,
registers a pending-ack entry for the new message id holding the full peer
set (which contains the sender itself), and sends a DATA envelope carrying
that id, the sender as origin, the fresh timestamp and the content to every
peer, the sender included. -/
theorem claim_C5_multicast (p : Proc) (content : Str)
    (h : p.process_id < p.total_processes) :
    (rMulticast p content).1.lamport_clock = p.lamport_clock + 1 ∧
    lookupT (rMulticast p content).1.pending_acks
        (msgId p.process_id (p.lamport_clock + 1) content) =
      some (List.range p.total_processes) ∧
    p.process_id ∈ List.range p.total_processes ∧
    (rMulticast p content).2 =
      (List.range p.total_processes).map
        (fun i => sendMessage .data
          (msgId p.process_id (p.lamport_clock + 1) content) content
          p.process_id (p.lamport_clock + 1) i) ∧
    sendMessage .data (msgId p.process_id (p.lamport_clock + 1) content)
        content p.process_id (p.lamport_clock + 1) p.process_id ∈
      (rMulticast p content).2 := by
  refine ⟨rfl, lookupT_setT_self _ _ _, List.mem_range.mpr h, rfl, ?_⟩
  exact List.mem_map.mpr ⟨p.process_id, List.mem_range.mpr h, rfl⟩

theorem claim_C5_witness :
    (initProc 0 3).process_id < (initProc 0 3).total_processes ∧
    (rMulticast (initProc 0 3) ("hi".data)).1.lamport_clock =
      (initProc 0 3).lamport_clock + 1 :=
  ⟨by decide, (claim_C5_multicast (initProc 0 3) ("hi".data) (by decide)).1⟩

/-- Claim C2 counterexample: the message id of a DATA message is NOT of the
form "<originSenderId>-<originLamportTimestamp>" and identity checks are NOT
independent of the payload: r_multicast of "hello" by process 0 at clock 0
produces the id "0-1-hello" (not "0-1"), and two DATA envelopes with the
same origin pair (0, 1) but different payloads are both delivered, so the
DeliveryLedger membership check distinguished them by payload. -/
theorem claim_C2_counterexample :
    msgId 0 1 ("hello".data) = ("0-1-hello".data) ∧
    ("0-1-hello".data) ≠ ("0-1".data) ∧
    (∃ env ∈ (rMulticast (initProc 0 2) ("hello".data)).2,
      env.message_id = ("0-1-hello".data)) ∧
    (run (initProc 2 3)
        [Event.recvData ("0-1-a".data) ("a".data) 0 1,
         Event.recvData ("0-1-b".data) ("b".data) 0 1]).2.2.countP
      (fun d => decide (d.sender_id = 0 ∧ d.lamport = 1)) = 2 := by decide

/-- Claim C2 (amended): the message id of a DATA message is
"<originSenderId>-<originLamportTimestamp>-<content>"; the triple (origin
sender, origin timestamp, payload) determines it injectively, every envelope
sent by r_multicast carries exactly this id, and the DeliveryLedger check in
_on_message_received compares full id strings (hence payload included). -/
theorem claim_C2_message_identity (p : Proc) (content : Str)
    (s t s' t' : Nat) (c c' : Str) (mid cc : Str) (ss ts : Nat) :
    (∀ env ∈ (rMulticast p content).2,
      env.message_id = msgId p.process_id (p.lamport_clock + 1) content) ∧
    (msgId s t c = msgId s' t' c' ↔ (s = s' ∧ t = t' ∧ c = c')) ∧
    ((onMessageReceived p mid cc ss ts).2.2 ≠ [] ↔
      mid ∉ p.delivered_messages) := by
  refine ⟨?_, ?_, ?_⟩
  · intro env henv
    obtain ⟨i, _, rfl⟩ := List.mem_map.mp henv
    rfl
  · constructor
    · exact msgId_injective
    · rintro ⟨rfl, rfl, rfl⟩
      rfl
  · rw [onMessageReceived_log]
    by_cases hm : mid ∈ p.delivered_messages
    · rw [if_pos hm]
      simp [hm]
    · rw [if_neg hm]
      simp [hm]

theorem claim_C2_witness :
    sendMessage .data (msgId 0 1 ("hello".data)) ("hello".data) 0 1 0 ∈
      (rMulticast (initProc 0 2) ("hello".data)).2 ∧
    (sendMessage .data (msgId 0 1 ("hello".data)) ("hello".data) 0 1
        0).message_id =
      msgId (initProc 0 2).process_id ((initProc 0 2).lamport_clock + 1)
        ("hello".data) :=
  ⟨by decide,
   (claim_C2_message_identity (initProc 0 2) ("hello".data) 0 0 0 0 [] []
       [] [] 0 0).1
     (sendMessage .data (msgId 0 1 ("hello".data)) ("hello".data) 0 1 0)
     (by decide)⟩

/-- Claim C8: a retransmission pass over a pending entry whose id was built
by r_multicast re-sends DATA envelopes with the identical message id, origin
sender, Lamport timestamp and content as the original multicast (no new
timestamp is minted), addressed exactly to the peers still pending, and only
when this process originated the message; the original multicast envelopes
have the very same shape. -/
theorem claim_C8_retransmission (pid s t : Nat) (c : Str) (pend : List Nat)
    (p : Proc) (content : Str) :
    retransmitEntry pid (msgId s t c, pend) =
      (if s = pid ∧ pend ≠ [] then
        pend.map (fun tgt => sendMessage .data (msgId s t c) c s t tgt)
      else []) ∧
    (rMulticast p content).2 =
      (List.range p.total_processes).map
        (fun i => sendMessage .data
          (msgId p.process_id (p.lamport_clock + 1) content) content
          p.process_id (p.lamport_clock + 1) i) := by
  refine ⟨?_, rfl⟩
  by_cases hp : pend = []
  · simp [retransmitEntry, hp]
  · by_cases hs : s = pid
    · simp [retransmitEntry, split2_msgId, pyInt_natDigits, hp, hs]
    · simp [retransmitEntry, split2_msgId, pyInt_natDigits, hp, hs]

/-- Claim C3 counterexample: receiving an ACK only ticks the local clock by
one and ignores the ACK envelope's timestamp, so after an ACK carrying
timestamp 5 arrives at a process with clock 0 the clock is 1, not greater
than 5; and in the gossip implementation a duplicate DATA receive leaves the
clock unchanged (7 is not greater than 7). -/
theorem claim_C3_counterexample :
    ((step (initProc 0 3) (Event.recvAck ("0-1-a".data) 1 5)).1.lamport_clock
        = 1 ∧
     ¬ (step (initProc 0 3)
          (Event.recvAck ("0-1-a".data) 1 5)).1.lamport_clock > 5) ∧
    ((Gossip.handleReceive 3 (Gossip.GProc.mk 1 7 [(0, 5)])
        (Gossip.GMsg.mk ("a".data) 5 0)).1.lamport_clock = 7 ∧
     ¬ (Gossip.handleReceive 3 (Gossip.GProc.mk 1 7 [(0, 5)])
          (Gossip.GMsg.mk ("a".data) 5 0)).1.lamport_clock > 7) := by decide

/-- Claim C3 (amended): the timestamps a process mints for its own
multicasts are strictly increasing; after handling any DATA envelope
(fresh or duplicate) the clock strictly exceeds both the received timestamp
and the prior clock; after handling an ACK the clock is exactly the prior
clock plus one (exceeding the prior clock but not necessarily the ACK's
timestamp, which the handler ignores); in the gossip implementation a fresh
receive sets the clock to max(prior, timestamp) + 1 and a duplicate receive
leaves it unchanged. -/
theorem claim_C3_clock_monotonicity (es : List Event) (p q : Proc)
    (mid content : Str) (s ts : Nat) (n : Nat) (g : Gossip.GProc)
    (m : Gossip.GMsg) :
    List.Chain' (· < ·) (sendStamps p es) ∧
    ((onMessageReceived q mid content s ts).1.lamport_clock > ts ∧
     (onMessageReceived q mid content s ts).1.lamport_clock >
       q.lamport_clock) ∧
    (onAckReceived q mid s).lamport_clock = q.lamport_clock + 1 ∧
    (Gossip.handleReceive n g m).1.lamport_clock =
      (if (m.original_sender, m.timestamp) ∈ g.delivered_messages then
        g.lamport_clock
      else max g.lamport_clock m.timestamp + 1) := by
  refine ⟨sendStamps_chain es p, ?_, onAckReceived_clock q mid s,
    Gossip.handleReceive_clock n g m⟩
  rw [onMessageReceived_clock]
  split <;> omega

/-- Claim C1: the delivery callback fires at most once per message identity
(origin sender, origin timestamp).  In the ACK implementation this holds
for any run in which DATA envelopes sharing the identity (s, t) share their
message id (true of all duplicates and retransmissions, which are copies of
the original envelope); in the gossip implementation it holds
unconditionally, since the dedup key is the pair itself. -/
theorem claim_C1_at_most_once_delivery (es : List Event) (p : Proc)
    (s t : Nat) (ms : List Gossip.GMsg) (n : Nat) (g : Gossip.GProc) :
    ((∀ mid c mid' c', Event.recvData mid c s t ∈ es →
        Event.recvData mid' c' s t ∈ es → mid = mid') →
      (run p es).2.2.countP
        (fun d => decide (d.sender_id = s ∧ d.lamport = t)) ≤ 1) ∧
    (Gossip.grun n g ms).2.2.countP
      (fun d => decide (d.original_sender = s ∧ d.timestamp = t)) ≤ 1 :=
  ⟨fun H => run_atMostOnce es p s t H, Gossip.grun_atMostOnce ms n g s t⟩

theorem claim_C1_witness :
    (∀ mid c mid' c',
      Event.recvData mid c 0 1 ∈
        [Event.recvData ("0-1-a".data) ("a".data) 0 1,
         Event.recvData ("0-1-a".data) ("a".data) 0 1] →
      Event.recvData mid' c' 0 1 ∈
        [Event.recvData ("0-1-a".data) ("a".data) 0 1,
         Event.recvData ("0-1-a".data) ("a".data) 0 1] →
      mid = mid') ∧
    (run (initProc 2 3)
        [Event.recvData ("0-1-a".data) ("a".data) 0 1,
         Event.recvData ("0-1-a".data) ("a".data) 0 1]).2.2.countP
      (fun d => decide (d.sender_id = 0 ∧ d.lamport = 1)) ≤ 1 := by
  have H0 : ∀ mid c mid' c',
      Event.recvData mid c 0 1 ∈
        [Event.recvData ("0-1-a".data) ("a".data) 0 1,
         Event.recvData ("0-1-a".data) ("a".data) 0 1] →
      Event.recvData mid' c' 0 1 ∈
        [Event.recvData ("0-1-a".data) ("a".data) 0 1,
         Event.recvData ("0-1-a".data) ("a".data) 0 1] →
      mid = mid' := by
    intro mid c mid' c' h1 h2
    simp only [List.mem_cons, List.not_mem_nil, or_false] at h1 h2
    rcases h1 with h1 | h1 <;> rcases h2 with h2 | h2 <;>
      (injection h1 with e1 _ _ _; injection h2 with e2 _ _ _;
       rw [e1, e2])
  exact ⟨H0,
    (claim_C1_at_most_once_delivery
      [Event.recvData ("0-1-a".data) ("a".data) 0 1,
       Event.recvData ("0-1-a".data) ("a".data) 0 1]
      (initProc 2 3) 0 1 [] 2 (Gossip.GProc.mk 0 0 [])).1 H0⟩

/-- Claim C7: an ACK for a message id absent from the pending-ack table
leaves the table unchanged; otherwise the acking peer is removed from the
entry's pending set and the entry is deleted exactly when that set becomes
empty — over a run of ACKs, the entry for an id registered with set S
disappears if and only if every peer of S has acked at least once. -/
theorem claim_C7_ack_completion (p : Proc) (mid : Str) (a : Nat)
    (S : List Nat) (as : List Nat) :
    (lookupT p.pending_acks mid = none →
      (onAckReceived p mid a).pending_acks = p.pending_acks) ∧
    (lookupT p.pending_acks mid = some S → a ∈ S →
      (onAckReceived p mid a).pending_acks =
        (if S.erase a = [] then delT p.pending_acks mid
         else setT p.pending_acks mid (S.erase a))) ∧
    (lookupT p.pending_acks mid = some S → (keysT p.pending_acks).Nodup →
      S.Nodup → S ≠ [] →
      (lookupT (runAcks p mid as).pending_acks mid = none ↔
        ∀ x ∈ S, x ∈ as)) := by
  refine ⟨onAckReceived_pending_none p mid a, ?_, ?_⟩
  · intro h ha
    rw [onAckReceived_pending p mid a S h, if_pos ha]
  · intro h hk hS hSne
    rw [runAcks_lookup as p mid S hk hS hSne h]
    by_cases hf : S.filter (fun x => decide (x ∉ as)) = []
    · rw [if_pos hf]
      simp only [true_iff]
      intro x hx
      by_contra hxa
      have hmem : x ∈ S.filter (fun x => decide (x ∉ as)) :=
        List.mem_filter.mpr ⟨hx, by simpa using hxa⟩
      rw [hf] at hmem
      exact List.not_mem_nil x hmem
    · rw [if_neg hf]
      constructor
      · intro hc
        exact absurd hc (by simp)
      · intro hall
        exfalso
        apply hf
        rw [List.filter_eq_nil_iff]
        intro x hx
        simp [hall x hx]

theorem claim_C7_witness :
    lookupT (Proc.mk 0 3 9 [] [(("0-1-a".data), [0, 1, 2])] []).pending_acks
        ("0-1-a".data) = some [0, 1, 2] ∧
    (keysT (Proc.mk 0 3 9 [] [(("0-1-a".data), [0, 1, 2])]
        []).pending_acks).Nodup ∧
    ([0, 1, 2] : List Nat).Nodup ∧
    ([0, 1, 2] : List Nat) ≠ [] ∧
    (lookupT (runAcks (Proc.mk 0 3 9 [] [(("0-1-a".data), [0, 1, 2])] [])
        ("0-1-a".data) [1, 0, 2]).pending_acks ("0-1-a".data) = none ↔
      ∀ x ∈ ([0, 1, 2] : List Nat), x ∈ ([1, 0, 2] : List Nat)) :=
  ⟨by decide, by decide, by decide, by decide,
   (claim_C7_ack_completion (Proc.mk 0 3 9 [] [(("0-1-a".data), [0, 1, 2])] [])
       ("0-1-a".data) 0 [0, 1, 2] [1, 0, 2]).2.2
     (by decide) (by decide) (by decide) (by decide)⟩

/-- Claim C10: a first-time delivery inserts the message into
buffer_messages; along any run entries are never removed (a buffered value,
under the invariant that buffered keys are delivered, stays present
verbatim); and no operation reads the buffer — replacing it changes nothing
else in the step's outcome. -/
theorem claim_C10_buffer_monotone (p : Proc) (mid content : Str) (s ts : Nat)
    (es : List Event) (k : Str) (v : Str × Nat × Nat)
    (b : List (Str × (Str × Nat × Nat))) (e : Event) (pid total : Nat) :
    bufInv (initProc pid total) ∧
    (mid ∉ p.delivered_messages →
      (onMessageReceived p mid content s ts).1.buffer_messages =
        setT p.buffer_messages mid (content, s, ts) ∧
      lookupT (onMessageReceived p mid content s ts).1.buffer_messages mid =
        some (content, s, ts)) ∧
    (bufInv p → lookupT p.buffer_messages k = some v →
      lookupT (run p es).1.buffer_messages k = some v) ∧
    (clearBuffer (step { p with buffer_messages := b } e).1 =
        clearBuffer (step p e).1 ∧
      (step { p with buffer_messages := b } e).2.1 = (step p e).2.1 ∧
      (step { p with buffer_messages := b } e).2.2 = (step p e).2.2) := by
  refine ⟨fun k h => by simp [initProc, lookupT] at h, ?_,
    fun hinv h => run_buffer_mono es p k v hinv h,
    step_ignores_buffer p b e⟩
  intro hm
  refine ⟨?_, ?_⟩
  · rw [onMessageReceived_buffer, if_neg hm]
  · rw [onMessageReceived_buffer, if_neg hm]
    exact lookupT_setT_self _ _ _

theorem claim_C10_witness :
    bufInv (Proc.mk 0 2 3 [("0-1-a".data)] []
      [(("0-1-a".data), (("a".data), 0, 1))]) ∧
    lookupT (Proc.mk 0 2 3 [("0-1-a".data)] []
        [(("0-1-a".data), (("a".data), 0, 1))]).buffer_messages
      ("0-1-a".data) = some (("a".data), 0, 1) ∧
    lookupT (run (Proc.mk 0 2 3 [("0-1-a".data)] []
          [(("0-1-a".data), (("a".data), 0, 1))])
        [Event.recvData ("0-2-b".data) ("b".data) 0 2]).1.buffer_messages
      ("0-1-a".data) = some (("a".data), 0, 1) := by
  have hinv : bufInv (Proc.mk 0 2 3 [("0-1-a".data)] []
      [(("0-1-a".data), (("a".data), 0, 1))]) := by
    intro k h
    simp only [lookupT] at h
    by_cases hk : k = ("0-1-a".data)
    · rw [hk]
      decide
    · rw [if_neg hk] at h
      simp at h
  exact ⟨hinv, by decide,
    (claim_C10_buffer_monotone
        (Proc.mk 0 2 3 [("0-1-a".data)] []
          [(("0-1-a".data), (("a".data), 0, 1))])
        ("0-2-b".data) ("b".data) 0 2
        [Event.recvData ("0-2-b".data) ("b".data) 0 2]
        ("0-1-a".data) (("a".data), 0, 1) [] Event.retrans 0 2).2.2.1
      hinv (by decide)⟩




end RMP
